import Mathlib

/-!
Verification of the virtualization-mcp Zed extension (src/lib.rs) and of
the session-broker design that its specification describes.

The extension itself is a single method, `context_server_command`, mapping
a context-server identifier to a command descriptor.  It is embedded below
with explicit state passing for the `&mut self` receiver.  The session
broker is not part of the sources; its correlation bookkeeping is modelled
from the specification where noted.
-/

/-- A context-server identifier wrapping the identifier string
(`zed::ContextServerId` is a tuple struct over `String`; the source reads
it as `id.0`). -/
structure ContextServerId where
  val : String
  deriving DecidableEq

/-- A command descriptor (`zed::Command`): executable name, ordered
argument list, and environment-override map.  The environment map is
modelled as an association list; `Default::default()` is the empty map. -/
structure Command where
  command : String
  args : List String
  env : List (String × String)
  deriving DecidableEq

/-- The extension value (`struct VirtualizationManagementExtension;` in
src/lib.rs): a fieldless struct. -/
structure VirtualizationManagementExtension where
  deriving DecidableEq

/-- A concrete extension value, used to instantiate theorems. -/
def extValue : VirtualizationManagementExtension := ⟨⟩

/-- The `context_server_command` method of the extension (src/lib.rs,
lines 6-19), embedded with explicit state passing for the `&mut self`
receiver: the result is the returned `Result<Command, String>` paired with
the extension value after the call.  The source matches `id.0.as_str()`
against the literal `"virtualization-mcp"` with a wildcard fallback that
produces `format!("Unknown server: {}", id.0)`; the `_project` parameter
is never inspected, so the embedding is polymorphic in the project type. -/
def context_server_command {Project : Type} (ext : VirtualizationManagementExtension)
    (sid : ContextServerId) (_project : Project) :
    Except String Command × VirtualizationManagementExtension :=
  (if sid.val = "virtualization-mcp" then
    Except.ok ⟨"uv", ["run", "virtualization_mcp.all_tools_server:main"], []⟩
  else
    Except.error ("Unknown server: " ++ sid.val), ext)

/-- Threading any sequence of lookups through the extension state: each
call's returned extension value is passed to the next call. -/
def runLookups {Project : Type} (ext : VirtualizationManagementExtension)
    (inputs : List (ContextServerId × Project)) : VirtualizationManagementExtension :=
  inputs.foldl (fun e i => (context_server_command e i.1 i.2).2) ext

/-- Modelled from the spec: the SessionBroker's per-session bookkeeping
(spec sections 3 and 4.3); the sources contain only the extension lookup,
not the broker.  `pending` holds the request ids with an outstanding
PendingRequest; `delivered` is the log of (request id, result) deliveries
made to callers. -/
structure BrokerState (R : Type) where
  pending : List Nat
  delivered : List (Nat × R)

/-- Modelled from the spec: dispatch of one inbound Response frame (spec
sections 3 and 4.3).  A frame whose id matches a currently pending request
resolves that request: the PendingRequest entry is removed and the result
is delivered to its caller.  A frame with an unmatched id is dropped, not
fatal. -/
def dispatchFrame {R : Type} (st : BrokerState R) (frame : Nat × R) : BrokerState R :=
  if frame.1 ∈ st.pending then
    ⟨st.pending.erase frame.1, st.delivered ++ [frame]⟩
  else
    st

/-- Modelled from the spec: the single reader task draining inbound frames
in arrival order and dispatching each against the pending-request map
(spec section 5). -/
def processFrames {R : Type} (st : BrokerState R) (frames : List (Nat × R)) : BrokerState R :=
  frames.foldl dispatchFrame st

/-- Modelled from the spec: the broker state once a set of concurrent
`call()` invocations has been recorded, each holding a fresh
generator-assigned request id, with nothing delivered yet (spec sections 3
and 4.3). -/
def initBroker {R : Type} (ids : List Nat) : BrokerState R :=
  ⟨ids, []⟩

/-- When the inbound frames carry pairwise distinct ids, all of them
pending, every frame is delivered, in arrival order. -/
lemma processFrames_delivered {R : Type} (frames : List (Nat × R)) :
    ∀ (pending : List Nat) (log : List (Nat × R)),
      (frames.map Prod.fst).Nodup →
      (∀ f ∈ frames, f.1 ∈ pending) →
      (processFrames ⟨pending, log⟩ frames).delivered = log ++ frames := by
  induction frames with
  | nil =>
    intro pending log _ _
    simp [processFrames]
  | cons f rest ih =>
    intro pending log hnd hmem
    have hf : f.1 ∈ pending := hmem f (List.mem_cons_self f rest)
    have hstep : dispatchFrame ⟨pending, log⟩ f = ⟨pending.erase f.1, log ++ [f]⟩ := by
      simp [dispatchFrame, hf]
    have hnd' : (rest.map Prod.fst).Nodup := by
      simpa using hnd.of_cons
    have hnotin : f.1 ∉ rest.map Prod.fst := by
      have := hnd
      simp only [List.map_cons, List.nodup_cons] at this
      exact this.1
    have hmem' : ∀ g ∈ rest, g.1 ∈ pending.erase f.1 := by
      intro g hg
      have hgp : g.1 ∈ pending := hmem g (List.mem_cons_of_mem f hg)
      have hne : g.1 ≠ f.1 := by
        intro hcontra
        exact hnotin (hcontra ▸ List.mem_map_of_mem Prod.fst hg)
      exact (List.mem_erase_of_ne hne).mpr hgp
    have : processFrames ⟨pending, log⟩ (f :: rest)
        = processFrames ⟨pending.erase f.1, log ++ [f]⟩ rest := by
      simp [processFrames, hstep]
    rw [this, ih (pending.erase f.1) (log ++ [f]) hnd' hmem']
    simp

/-- C1: for the identifier "virtualization-mcp", `context_server_command`
succeeds with the command descriptor whose executable is "uv", whose
argument list is exactly ["run", "virtualization_mcp.all_tools_server:main"]
in that order, and whose environment-override map is empty. -/
theorem context_server_command_known_id {Project : Type}
    (ext : VirtualizationManagementExtension) (p : Project) :
    (context_server_command ext ⟨"virtualization-mcp"⟩ p).1 =
      Except.ok ⟨"uv", ["run", "virtualization_mcp.all_tools_server:main"], []⟩ := by
  simp [context_server_command]

/-- C2: for every identifier other than "virtualization-mcp",
`context_server_command` fails with the unknown-server error, purely and
locally: in the embedding the call is a pure function of the identifier,
so no effect other than the returned error occurs, and the extension state
is returned unchanged.  The witness instantiates the existential reading:
there is an identifier on which the lookup fails. -/
theorem context_server_command_unknown_id {Project : Type}
    (ext : VirtualizationManagementExtension) (sid : ContextServerId) (p : Project)
    (h : sid.val ≠ "virtualization-mcp") :
    (context_server_command ext sid p).1 = Except.error ("Unknown server: " ++ sid.val) ∧
      (context_server_command ext sid p).2 = ext := by
  exact ⟨by simp [context_server_command, h], rfl⟩

/-- Witness for C2 at the concrete identifier "bogus". -/
theorem context_server_command_unknown_id_witness :
    ((ContextServerId.mk "bogus").val ≠ "virtualization-mcp") ∧
      ((context_server_command extValue ⟨"bogus"⟩ (0 : Nat)).1 =
          Except.error ("Unknown server: " ++ (ContextServerId.mk "bogus").val) ∧
        (context_server_command extValue ⟨"bogus"⟩ (0 : Nat)).2 = extValue) :=
  ⟨by decide, context_server_command_unknown_id extValue ⟨"bogus"⟩ (0 : Nat) (by decide)⟩

/-- C3: `context_server_command` is a pure function of the identifier
alone: two invocations with the same identifier return equal results,
whatever the project arguments (even of different types) and whatever the
extension values reached by earlier invocations. -/
theorem context_server_command_pure {P Q : Type}
    (e₁ e₂ : VirtualizationManagementExtension) (sid : ContextServerId)
    (p : P) (q : Q) :
    (context_server_command e₁ sid p).1 = (context_server_command e₂ sid q).1 := rfl

/-- C4: in the session broker, each concurrent `call()` invocation has its
result delivered to its own caller exactly once, correlated by request id,
regardless of the arrival order of the response frames: for any set of
calls with distinct request ids and any arrival permutation of their
response frames, each id's result appears exactly once in the delivery
log. -/
theorem call_results_delivered_exactly_once {R : Type} [DecidableEq R]
    (ids : List Nat) (r : Nat → R) (frames : List (Nat × R))
    (hids : ids.Nodup)
    (hperm : frames.Perm (ids.map fun i => (i, r i))) :
    ∀ i ∈ ids,
      @List.count _ instBEqOfDecidableEq (i, r i)
        (processFrames (initBroker ids) frames).delivered = 1 := by
  intro i hi
  have hfst : (frames.map Prod.fst).Perm ids := by
    have h1 := hperm.map Prod.fst
    rw [List.map_map] at h1
    have h2 : (Prod.fst ∘ fun i => (i, r i) : Nat → Nat) = id := rfl
    rw [h2, List.map_id] at h1
    exact h1
  have hnd : (frames.map Prod.fst).Nodup := hfst.nodup_iff.mpr hids
  have hmem : ∀ f ∈ frames, f.1 ∈ ids := by
    intro f hf
    have h2 : f ∈ ids.map fun j => (j, r j) := hperm.mem_iff.mp hf
    obtain ⟨j, hj, hfj⟩ := List.mem_map.mp h2
    rw [← hfj]
    exact hj
  have hdel : (processFrames (initBroker ids) frames).delivered = frames := by
    have h3 := processFrames_delivered frames ids [] hnd hmem
    simpa [initBroker] using h3
  rw [hdel, hperm.count_eq (i, r i)]
  have hinj : Function.Injective (fun j => (j, r j) : Nat → Nat × R) := by
    intro a b hab
    exact congrArg Prod.fst hab
  have hmapnd : (ids.map fun j => (j, r j)).Nodup := hids.map hinj
  exact List.count_eq_one_of_mem hmapnd (List.mem_map.mpr ⟨i, hi, rfl⟩)

/-- Witness for C4: two calls with ids 1 and 2, whose response frames
arrive in reversed order; the result for id 1 is delivered exactly once. -/
theorem call_results_delivered_exactly_once_witness :
    ([1, 2] : List Nat).Nodup ∧
      ([(2, 20), (1, 10)] : List (Nat × Nat)).Perm ([1, 2].map fun i => (i, i * 10)) ∧
      (1 ∈ ([1, 2] : List Nat) ∧
        @List.count _ instBEqOfDecidableEq ((1, 10) : Nat × Nat)
          (processFrames (initBroker [1, 2]) [(2, 20), (1, 10)]).delivered = 1) :=
  ⟨by decide, by decide, by decide,
    call_results_delivered_exactly_once [1, 2] (fun i => i * 10) [(2, 20), (1, 10)]
      (by decide) (by decide) 1 (by decide)⟩

/-- C5: `context_server_command` is total over all identifier strings: on
"virtualization-mcp" it returns the success value, and on every other
identifier (the wildcard arm, covering in particular the empty string) it
returns the error value; no input is unhandled. -/
theorem context_server_command_total {Project : Type}
    (ext : VirtualizationManagementExtension) (sid : ContextServerId) (p : Project) :
    (sid.val = "virtualization-mcp" ∧
        (context_server_command ext sid p).1 =
          Except.ok ⟨"uv", ["run", "virtualization_mcp.all_tools_server:main"], []⟩) ∨
      (sid.val ≠ "virtualization-mcp" ∧
        (context_server_command ext sid p).1 =
          Except.error ("Unknown server: " ++ sid.val)) := by
  by_cases h : sid.val = "virtualization-mcp"
  · exact Or.inl ⟨h, by simp [context_server_command, h]⟩
  · exact Or.inr ⟨h, by simp [context_server_command, h]⟩

/-- C6: whenever `context_server_command` fails, the error string is
exactly "Unknown server: " followed by the requested identifier. -/
theorem context_server_command_error_message {Project : Type}
    (ext : VirtualizationManagementExtension) (sid : ContextServerId) (p : Project)
    (e : String) (h : (context_server_command ext sid p).1 = Except.error e) :
    e = "Unknown server: " ++ sid.val := by
  by_cases hv : sid.val = "virtualization-mcp"
  · simp [context_server_command, hv] at h
  · simp [context_server_command, hv] at h
    exact h.symm

/-- Witness for C6 at the concrete identifier "bogus". -/
theorem context_server_command_error_message_witness :
    ("Unknown server: bogus" : String) = "Unknown server: " ++ (ContextServerId.mk "bogus").val :=
  context_server_command_error_message extValue ⟨"bogus"⟩ (0 : Nat) "Unknown server: bogus" rfl

/-- C7: every invocation of `context_server_command` returns the extension
state unchanged, so any number of lookups threaded in any order leave the
extension exactly as it started. -/
theorem context_server_command_frame {Project : Type}
    (ext : VirtualizationManagementExtension) (inputs : List (ContextServerId × Project)) :
    runLookups ext inputs = ext ∧
      ∀ (sid : ContextServerId) (p : Project), (context_server_command ext sid p).2 = ext := by
  refine ⟨?_, fun sid p => rfl⟩
  induction inputs with
  | nil => rfl
  | cons i rest ih => exact ih
